import Mathlib

/-!
Shallow embedding of the finit configuration parser (src/conf.c) and the
init state machine (src/sm.c), together with theorems settling the frozen
claims about them.

C strings are modelled as `List Char`, where the end of the list plays the
role of the NUL terminator.  Machine integers are modelled as `Int` (C `int`)
or `Nat` (`rlim_t`, bitmask values), with explicit masking where the source
relies on fixed-width behaviour.
-/

namespace Finit

/-! ### strtonum (libbsd) : decimal parse with inclusive range check -/

/-- Accumulate decimal digits; `none` once a non-digit is met or when no
digit was seen at all (mirrors `strtoll` followed by the full-consumption
check inside `strtonum`). -/
def digitsVal : List Char → Option Int → Option Int
  | [], acc => acc
  | c :: rest, acc =>
    if c.isDigit then
      digitsVal rest (some ((acc.getD 0) * 10 + ((c.toNat : Int) - 48)))
    else none

/-- Parse an optionally signed decimal integer occupying the whole string. -/
def parseDec (s : List Char) : Option Int :=
  match s with
  | '-' :: rest => (digitsVal rest none).map (fun v => -v)
  | '+' :: rest => digitsVal rest none
  | _ => digitsVal s none

/-- `strtonum(numstr, minval, maxval, &err)`: the parsed value when the whole
string is a decimal number within `[lo, hi]`, otherwise an error (`none`). -/
def strtonum (s : List Char) (lo hi : Int) : Option Int :=
  match parseDec s with
  | none => none
  | some v => if v < lo ∨ v > hi then none else some v

/-! ### conf_parse_runlevels (src/conf.c:80-113) -/

/-- `SETBIT(x, b)` from lite: `x |= 1 << b`. -/
def setbit (x b : Nat) : Nat := x ||| (1 <<< b)

/-- `CLRBIT(x, b)` from lite on a 32-bit `int`: `x &= ~(1 << b)`. -/
def clrbit (x b : Nat) : Nat := x &&& ((2 ^ 32 - 1) ^^^ (1 <<< b))

/-- The scanning loop of `conf_parse_runlevels`, processing the characters
from index 1 onward (`i = 1`).  `neg` is the `not` flag, `bm` the bitmask.
The loop stops at `']'` or at the NUL terminator (end of list). -/
def rlGo : List Char → Bool → Nat → Nat
  | [], _, bm => bm
  | c :: rest, neg, bm =>
    if c = ']' then bm
    else if c = '!' then rlGo rest true 0x3FE
    else
      let c2 := if c = 's' ∨ c = 'S' then '0' else c
      let level : Int := (c2.toNat : Int) - 48
      if level > 9 ∨ level < 0 then rlGo rest neg bm
      else if neg then rlGo rest neg (clrbit bm level.toNat)
      else rlGo rest neg (setbit bm level.toNat)

/-- `conf_parse_runlevels`: convert an optional `"[!123456789S]"` string into
a bitmask.  A null argument defaults to `"[234]"`; scanning starts at
index 1. -/
def conf_parse_runlevels (runlevels : Option (List Char)) : Nat :=
  rlGo ((runlevels.getD "[234]".toList).drop 1) false 0

/-! ### conf_parse_cond (src/conf.c:115-149) -/

/-- The fields of `svc_t` that `conf_parse_cond` touches.  The `cond` buffer
has size `condsz = sizeof(svc->cond)`, kept as a parameter because the
`svc_t` declaration lives outside this repository's core sources. -/
structure Svc where
  cmd : List Char
  cond : List Char
  sighup : Bool
  isDaemon : Bool
deriving DecidableEq, Repr

/-- `svc_is_daemon(svc)`: type test against `SVC_TYPE_SERVICE`, carried
here as a boolean field of the service record. -/
def svc_is_daemon (svc : Svc) : Bool := svc.isDaemon

/-- `conf_parse_cond(svc, cond)`.  Returns the updated service (or `none`
for the null-pointer branch) together with a flag recording whether the
too-long-event-list warning was logged.  A daemon defaults to
`sighup = 1`; a leading `'!'` clears it; the characters up to the first
`'>'` (the source writes a NUL over it) are copied into `svc->cond` by
`strlcpy` only when their count `i` satisfies `i < condsz`; otherwise the
function warns and returns with `svc->cond` untouched. -/
def conf_parse_cond (condsz : Nat) (svcOpt : Option Svc)
    (cond : Option (List Char)) : Option Svc × Bool :=
  match svcOpt with
  | none => (none, false)
  | some svc0 =>
    let svc1 := if svc_is_daemon svc0 then { svc0 with sighup := true } else svc0
    match cond with
    | none => (some svc1, false)
    | some cs =>
      let svc2 := if cs.head? = some '!' then { svc1 with sighup := false } else svc1
      let cs2 := if cs.head? = some '!' then cs.drop 1 else cs
      let p := cs2.takeWhile (fun c => c ≠ '>')
      if p.length ≥ condsz then (some svc2, true)
      else (some { svc2 with cond := p }, false)

/-! ### Resource limits (src/conf.c:151-250) -/

/-- Linux `sys/resource.h` resource numbers, as used by the source. -/
def RLIMIT_CPU : Nat := 0
def RLIMIT_FSIZE : Nat := 1
def RLIMIT_DATA : Nat := 2
def RLIMIT_STACK : Nat := 3
def RLIMIT_CORE : Nat := 4
def RLIMIT_RSS : Nat := 5
def RLIMIT_NPROC : Nat := 6
def RLIMIT_NOFILE : Nat := 7
def RLIMIT_MEMLOCK : Nat := 8
def RLIMIT_AS : Nat := 9
def RLIMIT_LOCKS : Nat := 10
def RLIMIT_SIGPENDING : Nat := 11
def RLIMIT_MSGQUEUE : Nat := 12
def RLIMIT_NICE : Nat := 13
def RLIMIT_RTPRIO : Nat := 14
def RLIMIT_RTTIME : Nat := 15
def RLIMIT_NLIMITS : Nat := 16

/-- `RLIM_INFINITY` for a 64-bit unsigned `rlim_t`. -/
def RLIM_INFINITY : Nat := 2 ^ 64 - 1

/-- `struct rlimit`: a (soft, hard) pair. -/
structure Rlimit where
  rlim_cur : Nat
  rlim_max : Nat
deriving DecidableEq, Repr

/-- The `rlimit_names` table, in source order (`RLIMIT_RTTIME` is compiled
in on Linux). -/
def rlimit_names : List (List Char × Nat) :=
  [("as".toList, RLIMIT_AS), ("core".toList, RLIMIT_CORE),
   ("cpu".toList, RLIMIT_CPU), ("data".toList, RLIMIT_DATA),
   ("fsize".toList, RLIMIT_FSIZE), ("locks".toList, RLIMIT_LOCKS),
   ("memlock".toList, RLIMIT_MEMLOCK), ("msgqueue".toList, RLIMIT_MSGQUEUE),
   ("nice".toList, RLIMIT_NICE), ("nofile".toList, RLIMIT_NOFILE),
   ("nproc".toList, RLIMIT_NPROC), ("rss".toList, RLIMIT_RSS),
   ("rtprio".toList, RLIMIT_RTPRIO), ("rttime".toList, RLIMIT_RTTIME),
   ("sigpending".toList, RLIMIT_SIGPENDING), ("stack".toList, RLIMIT_STACK)]

/-- `str2rlim`: first table entry whose name equals `str`, else `-1`. -/
def str2rlim (str : List Char) : Int :=
  match rlimit_names.find? (fun rn => rn.1 = str) with
  | some rn => (rn.2 : Int)
  | none => -1

/-- `rlim2str`: first table entry whose value equals `rlim`, else
`"unknown"`. -/
def rlim2str (rlim : Int) : List Char :=
  match rlimit_names.find? (fun rn => (rn.2 : Int) = rlim) with
  | some rn => rn.1
  | none => "unknown".toList

/-- `strtok(_, " \t")` delimiter test. -/
def isDelim (c : Char) : Bool := c = ' ' ∨ c = '\t'

/-- Worker for `tokens`: `acc` holds the current token, reversed. -/
def tokensAux : List Char → List Char → List (List Char)
  | [], acc => if acc = [] then [] else [acc.reverse]
  | c :: rest, acc =>
    if isDelim c then
      if acc = [] then tokensAux rest []
      else acc.reverse :: tokensAux rest []
    else tokensAux rest (c :: acc)

/-- Split into maximal runs of non-delimiter characters, as repeated
`strtok(line, " \t")` calls produce them. -/
def tokens (l : List Char) : List (List Char) := tokensAux l []

/-- The value parse of `conf_parse_rlimit`: `unlimited`/`infinity` map to
`RLIM_INFINITY`, anything else goes through
`strtonum(val, 0, (long long)2 << 31)`, i.e. range `[0, 2^32]`. -/
def rlimitValue (val : List Char) : Option Nat :=
  if val = "unlimited".toList ∨ val = "infinity".toList then some RLIM_INFINITY
  else (strtonum val 0 (2 ^ 32)).map Int.toNat

/-- `conf_parse_rlimit(line, arr)`.  Returns the new array and a flag
recording whether a warning was logged (every failure path logs one and
leaves the array untouched).  Mirrors the source's control flow: token
extraction, `str2rlim` range guard, `soft`/`hard` selection, value parse,
then a single write through the selected pointer. -/
def conf_parse_rlimit (line : List Char) (arr : List Rlimit) :
    List Rlimit × Bool :=
  match tokens line with
  | level :: limit :: val :: _ =>
    let resource := str2rlim limit
    if resource < 0 ∨ resource > (RLIMIT_NLIMITS : Int) then (arr, true)
    else if level = "soft".toList then
      match rlimitValue val with
      | none => (arr, true)
      | some cfg =>
        let i := resource.toNat
        (arr.set i { arr.getD i ⟨0, 0⟩ with rlim_cur := cfg }, false)
    else if level = "hard".toList then
      match rlimitValue val with
      | none => (arr, true)
      | some cfg =>
        let i := resource.toNat
        (arr.set i { arr.getD i ⟨0, 0⟩ with rlim_max := cfg }, false)
    else (arr, true)
  | _ => (arr, true)

/-! ### parse_static, `runlevel <n>` branch (src/conf.c:309-319) -/

/-- Modelled from the spec: the `RUNLEVEL` macro (default boot runlevel)
from `finit.h`, which is not among the core sources; the spec fixes the
fallback default to 2. -/
def RUNLEVEL : Int := 2

/-- The `runlevel <n>` handler of `parse_static`: the value `cfglevel` is
set to.  `strtonum(token, 1, 9)` on error falls back to `RUNLEVEL`, then
the guard `cfglevel < 1 || cfglevel > 9 || cfglevel == 6` forces 2. -/
def parse_static_runlevel (token : List Char) : Int :=
  let cfglevel :=
    match strtonum token 1 9 with
    | none => RUNLEVEL
    | some v => v
  if cfglevel < 1 ∨ cfglevel > 9 ∨ cfglevel = 6 then 2 else cfglevel

/-! ### conf_reload and the change set (src/conf.c:475-582)

Only `do_change`, `drop_change` and `drop_changes` ever touch
`conf_change_list`; in particular `parse_conf`, `parse_conf_dynamic` and
the per-entry filtering inside `conf_reload` leave it alone, so the model
of `conf_reload` tracks the change set exactly and abstracts the parsing
side effects away. -/

/-- `drop_changes()`: remove every node of the change list in turn. -/
def drop_changes : List (List Char) → List (List Char)
  | [] => []
  | _ :: rest => drop_changes rest

/-- The filesystem view `conf_reload` depends on for its change-set
behaviour: the result of `scandir(rcsd, ...)`, which is either a failure
(`none`) or a listing. -/
structure FsView where
  scandir : Option (List (List Char))

/-- `conf_reload()`: parse `FINIT_CONF` (no change-set effect); `scandir`
the drop-in directory — on failure return 0 at once, skipping
`drop_changes`; otherwise process the entries (no change-set effect) and
then drain the change set.  Returns the new change set and the return
code. -/
def conf_reload (changes : List (List Char)) (fs : FsView) :
    List (List Char) × Int :=
  match fs.scandir with
  | none => (changes, 0)
  | some _entries => (drop_changes changes, 0)

/-! ### The state machine (src/sm.c) -/

/-- Filesystem actions performed by `nologin()`. -/
inductive FsAct where
  | touch
  | erase
deriving DecidableEq, Repr

/-- `nologin()` (src/sm.c:82-89), read against the already-updated globals:
`rl` is the (new) `runlevel`, `pl` the (previous) `prevlevel`.  The touch
happens first, then the erase. -/
def nologinActs (rl pl : Int) : List FsAct :=
  (if rl = 1 ∨ rl = 0 ∨ rl = 6 then [FsAct.touch] else []) ++
  (if pl = 1 ∨ pl = 0 ∨ pl = 6 then [FsAct.erase] else [])

/-- The six states of `sm_state_t`. -/
inductive SmState where
  | bootstrap
  | running
  | runlevel_change
  | runlevel_wait
  | reload_change
  | reload_wait
deriving DecidableEq, Repr

/-- The machine state: the `sm_t` record plus the globals `runlevel` and
`prevlevel` it reads and writes, plus the trace of `nologin` filesystem
actions. -/
structure St where
  state : SmState
  newlevel : Int
  reload : Bool
  in_teardown : Bool
  runlevel : Int
  prevlevel : Int
  acts : List FsAct
deriving DecidableEq, Repr

/-- Answers of the external collaborators, per loop iteration: `stop k` is
whether `svc_stop_completed()` returns a service at the `k`-th iteration of
the re-run loop, `chg k` the answer of `conf_any_change()`. -/
structure Env where
  stop : Nat → Bool
  chg : Nat → Bool

/-- One iteration of the `sm_step` loop body (the `switch` of
src/sm.c:117-257), given this iteration's collaborator answers.
`service_step_all`, hooks, `conf_reload` and the other registry calls have
no effect on the fields modelled here, except that the `runlevel_change`
branch records the `nologin()` actions in the trace. -/
def smExec1 (stopNow _chgNow : Bool) (s : St) : St :=
  match s.state with
  | SmState.bootstrap => { s with state := SmState.running }
  | SmState.running =>
    if 0 ≤ s.newlevel ∧ s.newlevel ≤ 9 then
      if s.runlevel = s.newlevel then { s with newlevel := -1 }
      else { s with state := SmState.runlevel_change }
    else if s.reload then
      { s with reload := false, state := SmState.reload_change }
    else s
  | SmState.runlevel_change =>
    { s with prevlevel := s.runlevel,
             runlevel := s.newlevel,
             newlevel := -1,
             acts := s.acts ++ nologinActs s.newlevel s.runlevel,
             in_teardown := true,
             state := SmState.runlevel_wait }
  | SmState.runlevel_wait =>
    if stopNow then s
    else { s with in_teardown := false, state := SmState.running }
  | SmState.reload_change =>
    { s with in_teardown := true, state := SmState.reload_wait }
  | SmState.reload_wait =>
    if stopNow then s
    else { s with in_teardown := false, state := SmState.running }

/-- The `restart:` loop of `sm_step` (src/sm.c:111-260): run the body; if
`sm->state` changed, go again.  `fuel` bounds the number of iterations,
`k` indexes the collaborator answers; `none` means the fuel ran out before
the loop exited. -/
def smStepAux : Nat → Nat → Env → St → Option St
  | 0, _, _, _ => none
  | fuel + 1, k, env, s =>
    let s2 := smExec1 (env.stop k) (env.chg k) s
    if s2.state = s.state then some s2
    else smStepAux fuel (k + 1) env s2

/-- `sm_step(sm)`: the loop with enough fuel (10 iterations; the
termination theorem shows this always suffices). -/
def sm_step (env : Env) (s : St) : St :=
  (smStepAux 10 0 env s).getD s

/-! ## Theorems -/

/-! ### C5: runlevel masks -/

lemma shiftLeft_one_lt_1024 {b : Nat} (hb : b ≤ 9) : 1 <<< b < 1024 := by
  have h1 : 1 <<< b = 2 ^ b := by
    rw [Nat.shiftLeft_eq]; ring
  have h2 : (2 : Nat) ^ b ≤ 2 ^ 9 := Nat.pow_le_pow_right (by norm_num) hb
  omega

lemma rlGo_lt_1024 (l : List Char) :
    ∀ neg bm, bm < 1024 → rlGo l neg bm < 1024 := by
  induction l with
  | nil => intro neg bm h; simpa [rlGo] using h
  | cons c rest ih =>
    intro neg bm h
    by_cases hb : c = ']'
    · simpa [rlGo, hb] using h
    · by_cases hbang : c = '!'
      · simp only [rlGo, hb, hbang, if_true, if_false]
        exact ih true 0x3FE (by norm_num)
      · simp only [rlGo, hb, hbang, if_false]
        set c2 := if c = 's' ∨ c = 'S' then '0' else c with hc2
        set level : Int := (c2.toNat : Int) - 48 with hlv
        by_cases hrange : level > 9 ∨ level < 0
        · simp only [hrange, if_true]
          exact ih neg bm h
        · simp only [hrange, if_false]
          have hlev9 : level.toNat ≤ 9 := by omega
          have hset : setbit bm level.toNat < 1024 := by
            have h10 : (1024 : Nat) = 2 ^ 10 := by norm_num
            exact h10 ▸ Nat.or_lt_two_pow (h10 ▸ h)
              (h10 ▸ shiftLeft_one_lt_1024 hlev9)
          have hclr : clrbit bm level.toNat < 1024 :=
            lt_of_le_of_lt Nat.and_le_left h
          cases neg
          · simpa using ih false _ hset
          · simpa using ih true _ hclr

lemma rlGo_neg_bit0 (l : List Char) :
    ∀ bm, bm.testBit 0 = false → (rlGo l true bm).testBit 0 = false := by
  induction l with
  | nil => intro bm h; simpa [rlGo] using h
  | cons c rest ih =>
    intro bm h
    by_cases hb : c = ']'
    · simpa [rlGo, hb] using h
    · by_cases hbang : c = '!'
      · simp only [rlGo, hb, hbang, if_true, if_false]
        exact ih 0x3FE (by norm_num)
      · simp only [rlGo, hb, hbang, if_false]
        set c2 := if c = 's' ∨ c = 'S' then '0' else c with hc2
        set level : Int := (c2.toNat : Int) - 48 with hlv
        by_cases hrange : level > 9 ∨ level < 0
        · simp only [hrange, if_true]; exact ih bm h
        · simp only [hrange, if_false, if_true]
          refine ih (clrbit bm level.toNat) ?_
          unfold clrbit
          rw [Nat.testBit_land, h, Bool.false_and]

lemma rlGo_bang_bit0 (l : List Char) :
    ∀ neg bm, '!' ∈ l.takeWhile (fun c => c ≠ ']') →
      (rlGo l neg bm).testBit 0 = false := by
  induction l with
  | nil => intro neg bm h; simp at h
  | cons c rest ih =>
    intro neg bm h
    by_cases hb : c = ']'
    · simp [hb, List.takeWhile] at h
    · by_cases hbang : c = '!'
      · simp only [rlGo, hb, hbang, if_true, if_false]
        exact rlGo_neg_bit0 rest 0x3FE (by norm_num)
      · have hrest : '!' ∈ rest.takeWhile (fun c => c ≠ ']') := by
          have hstep : (c :: rest).takeWhile (fun c => c ≠ ']')
              = c :: rest.takeWhile (fun c => c ≠ ']') := by
            simp [List.takeWhile_cons, hb]
          rw [hstep] at h
          rcases List.mem_cons.mp h with hcase | hcase
          · exact absurd hcase.symm hbang
          · exact hcase
        simp only [rlGo, hb, hbang, if_false]
        set c2 := if c = 's' ∨ c = 'S' then '0' else c with hc2
        set level : Int := (c2.toNat : Int) - 48 with hlv
        by_cases hrange : level > 9 ∨ level < 0
        · simp only [hrange, if_true]; exact ih neg bm hrest
        · simp only [hrange, if_false]
          cases neg
          · simpa using ih false _ hrest
          · simpa using ih true _ hrest

/-- C5 (counterexample): the claim says bit 0 is never set in the result
whenever the string contains `'!'`.  The scan starts at index 1 and a `'!'`
at index 0 is never seen, so `"!0"` contains `'!'` yet yields bit 0 set. -/
theorem conf_parse_runlevels_bang_counterexample :
    ('!' ∈ "!0".toList) ∧
    Nat.testBit (conf_parse_runlevels (some "!0".toList)) 0 = true := by
  decide

/-- C5 (amended): for every string `s`, `conf_parse_runlevels` returns a
subset of bits 0..9; and whenever `'!'` occurs among the scanned
characters — after the first character and before the terminating `']'` —
bit 0 is clear in the result. -/
theorem conf_parse_runlevels_mask (s : List Char) :
    conf_parse_runlevels (some s) < 1024 ∧
    ('!' ∈ (s.drop 1).takeWhile (fun c => c ≠ ']') →
      Nat.testBit (conf_parse_runlevels (some s)) 0 = false) := by
  constructor
  · exact rlGo_lt_1024 _ false 0 (by norm_num)
  · intro h
    exact rlGo_bang_bit0 _ false 0 h

/-- Witness for `conf_parse_runlevels_mask` at `"[!2]"`. -/
theorem conf_parse_runlevels_mask_witness :
    conf_parse_runlevels (some "[!2]".toList) < 1024 ∧
    Nat.testBit (conf_parse_runlevels (some "[!2]".toList)) 0 = false :=
  ⟨(conf_parse_runlevels_mask "[!2]".toList).1,
   (conf_parse_runlevels_mask "[!2]".toList).2 (by decide)⟩

/-! ### C9: rlimit name round-trip -/

/-- C9: for every resource name in the recognized table,
`rlim2str (str2rlim n) = n`. -/
theorem rlim_roundtrip :
    ∀ n ∈ rlimit_names.map Prod.fst, rlim2str (str2rlim n) = n := by
  decide

/-- Witness for `rlim_roundtrip` at `"as"`. -/
theorem rlim_roundtrip_witness :
    "as".toList ∈ rlimit_names.map Prod.fst ∧
    rlim2str (str2rlim "as".toList) = "as".toList :=
  ⟨by decide, rlim_roundtrip "as".toList (by decide)⟩

/-! ### C4: the bootstrap `runlevel <n>` line -/

/-- C4: if the argument fails to parse or the value is below 1, above 9 or
equal to 6, `cfglevel` becomes 2; otherwise it becomes the parsed value. -/
theorem parse_static_runlevel_spec (token : List Char) :
    (parseDec token = none → parse_static_runlevel token = 2) ∧
    (∀ v, parseDec token = some v → (v < 1 ∨ v > 9 ∨ v = 6) →
      parse_static_runlevel token = 2) ∧
    (∀ v, parseDec token = some v → 1 ≤ v → v ≤ 9 → v ≠ 6 →
      parse_static_runlevel token = v) := by
  refine ⟨fun h => ?_, fun v hv hbad => ?_, fun v hv h1 h9 h6 => ?_⟩
  · simp [parse_static_runlevel, strtonum, h, RUNLEVEL]
  · rcases hbad with hb | hb | hb
    · simp only [parse_static_runlevel, strtonum, hv]
      have : v < 1 ∨ v > 9 := Or.inl hb
      simp [this, RUNLEVEL]
    · simp only [parse_static_runlevel, strtonum, hv]
      have : v < 1 ∨ v > 9 := Or.inr hb
      simp [this, RUNLEVEL]
    · subst hb
      simp [parse_static_runlevel, strtonum, hv, RUNLEVEL]
  · have hno : ¬ (v < 1 ∨ v > 9) := by omega
    simp only [parse_static_runlevel, strtonum, hv, hno, if_false]
    have : ¬ (v < 1 ∨ v > 9 ∨ v = 6) := by
      push_neg; exact ⟨by omega, by omega, h6⟩
    simp [this]

/-- Witness for `parse_static_runlevel_spec`: the argument `6` parses but is
rejected, so `cfglevel` falls back to 2. -/
theorem parse_static_runlevel_spec_witness :
    parseDec "6".toList = some 6 ∧ parse_static_runlevel "6".toList = 2 :=
  ⟨by decide,
   (parse_static_runlevel_spec "6".toList).2.1 6 (by decide) (by decide)⟩

/-! ### C3: service condition parsing -/

/-- C3 (counterexample): with a condition buffer of size 2 and the string
`"abc>"`, the prefix `"abc"` does not fit; the claim says the truncated
prefix (here `"a"`, what `strlcpy` would keep) is stored with a warning,
but the source returns before the copy, leaving the condition empty. -/
theorem conf_parse_cond_overflow_counterexample :
    conf_parse_cond 2 (some ⟨"x".toList, [], false, false⟩)
        (some "abc>".toList)
      = (some ⟨"x".toList, [], false, false⟩, true) ∧
    (([] : List Char)
      ≠ ("abc>".toList.takeWhile (fun c => c ≠ '>')).take 1) := by
  decide

/-- C3 (amended): `conf_parse_cond` stores the prefix of the string — after
any leading `'!'` — up to the first `'>'`; when that prefix does not fit
the condition buffer it logs a warning and leaves the stored condition
unchanged. -/
theorem conf_parse_cond_spec (condsz : Nat) (svc : Svc) (cs : List Char) :
    (((if cs.head? = some '!' then cs.drop 1 else cs).takeWhile
        (fun c => c ≠ '>')).length < condsz →
      (conf_parse_cond condsz (some svc) (some cs)).1.map Svc.cond
          = some ((if cs.head? = some '!' then cs.drop 1 else cs).takeWhile
              (fun c => c ≠ '>')) ∧
      (conf_parse_cond condsz (some svc) (some cs)).2 = false) ∧
    (((if cs.head? = some '!' then cs.drop 1 else cs).takeWhile
        (fun c => c ≠ '>')).length ≥ condsz →
      (conf_parse_cond condsz (some svc) (some cs)).1.map Svc.cond
          = some svc.cond ∧
      (conf_parse_cond condsz (some svc) (some cs)).2 = true) := by
  obtain ⟨cmd0, cond0, sh0, dm0⟩ := svc
  constructor
  · intro hlt
    simp only [conf_parse_cond, svc_is_daemon]
    split_ifs with h1 h2 h3 h4 h5 h6 <;> simp_all <;> omega
  · intro hge
    simp only [conf_parse_cond, svc_is_daemon]
    split_ifs with h1 h2 h3 h4 h5 h6 <;> simp_all

/-- Witness for `conf_parse_cond_spec`: scenario 6 of the spec, condition
`<!net/route/default>` on a daemon with a 128-byte buffer. -/
theorem conf_parse_cond_spec_witness :
    (conf_parse_cond 128 (some ⟨"x".toList, [], false, true⟩)
        (some "!net/route/default>".toList)).1.map Svc.cond
      = some ((if "!net/route/default>".toList.head? = some '!'
            then "!net/route/default>".toList.drop 1
            else "!net/route/default>".toList).takeWhile
          (fun c => c ≠ '>')) ∧
    (conf_parse_cond 128 (some ⟨"x".toList, [], false, true⟩)
        (some "!net/route/default>".toList)).2 = false :=
  (conf_parse_cond_spec 128 ⟨"x".toList, [], false, true⟩
      "!net/route/default>".toList).1 (by decide)

/-! ### C1: conf_reload and the change set -/

lemma drop_changes_eq_nil (l : List (List Char)) : drop_changes l = [] := by
  induction l with
  | nil => rfl
  | cons _ rest ih => simpa [drop_changes] using ih

/-- C1 (counterexample): when `scandir` on the drop-in directory fails,
`conf_reload` returns early and the change set is *not* drained. -/
theorem conf_reload_scandir_fail_counterexample :
    (conf_reload ["a.conf".toList] ⟨none⟩).1 ≠ [] := by
  decide

/-- C1 (amended): when the drop-in directory can be enumerated the change
set is empty once `conf_reload` returns; when `scandir` fails the function
returns early and the change set is left exactly as it was. -/
theorem conf_reload_change_set (changes : List (List Char)) :
    (∀ entries, (conf_reload changes ⟨some entries⟩).1 = []) ∧
    (conf_reload changes ⟨none⟩).1 = changes := by
  exact ⟨fun _ => drop_changes_eq_nil changes, rfl⟩

/-! ### C8 and C10: rlimit line parsing -/

/-- C8: a parse failure warns and leaves the array untouched; success
updates exactly the selected (soft or hard) field of the named resource to
the parsed value. -/
theorem conf_parse_rlimit_spec (line : List Char) (arr : List Rlimit) :
    ((conf_parse_rlimit line arr).2 = true →
      (conf_parse_rlimit line arr).1 = arr) ∧
    ((conf_parse_rlimit line arr).2 = false →
      ∃ level limit val rest cfg,
        tokens line = level :: limit :: val :: rest ∧
        0 ≤ str2rlim limit ∧ rlimitValue val = some cfg ∧
        ((level = "soft".toList ∧
            (conf_parse_rlimit line arr).1
              = arr.set (str2rlim limit).toNat
                  { arr.getD (str2rlim limit).toNat ⟨0, 0⟩ with
                      rlim_cur := cfg })
         ∨ (level = "hard".toList ∧
            (conf_parse_rlimit line arr).1
              = arr.set (str2rlim limit).toNat
                  { arr.getD (str2rlim limit).toNat ⟨0, 0⟩ with
                      rlim_max := cfg }))) := by
  cases htok : tokens line with
  | nil =>
    have hE : conf_parse_rlimit line arr = (arr, true) := by
      unfold conf_parse_rlimit; rw [htok]
    rw [hE]; simp
  | cons level ts =>
    cases ts with
    | nil =>
      have hE : conf_parse_rlimit line arr = (arr, true) := by
        unfold conf_parse_rlimit; rw [htok]
      rw [hE]; simp
    | cons limit ts2 =>
      cases ts2 with
      | nil =>
        have hE : conf_parse_rlimit line arr = (arr, true) := by
          unfold conf_parse_rlimit; rw [htok]
        rw [hE]; simp
      | cons val rest =>
        by_cases hres : str2rlim limit < 0 ∨ str2rlim limit > (RLIMIT_NLIMITS : Int)
        · have hE : conf_parse_rlimit line arr = (arr, true) := by
            unfold conf_parse_rlimit; rw [htok]; simp [hres]
          rw [hE]; simp
        · by_cases hsoft : level = "soft".toList
          · cases hval : rlimitValue val with
            | none =>
              have hE : conf_parse_rlimit line arr = (arr, true) := by
                unfold conf_parse_rlimit; rw [htok]; simp [hres, hsoft, hval]
              rw [hE]; simp
            | some cfg =>
              have hE : conf_parse_rlimit line arr
                  = (arr.set (str2rlim limit).toNat
                      { arr.getD (str2rlim limit).toNat ⟨0, 0⟩ with
                          rlim_cur := cfg }, false) := by
                unfold conf_parse_rlimit; rw [htok]; simp [hres, hsoft, hval]
              refine ⟨fun hw => ?_, fun _ => ?_⟩
              · rw [hE] at hw; simp at hw
              · exact ⟨level, limit, val, rest, cfg, rfl, by omega, hval,
                  Or.inl ⟨hsoft, by rw [hE]⟩⟩
          · by_cases hhard : level = "hard".toList
            · cases hval : rlimitValue val with
              | none =>
                have hE : conf_parse_rlimit line arr = (arr, true) := by
                  unfold conf_parse_rlimit; rw [htok]
                  simp [hres, hsoft, hhard, hval]
                rw [hE]; simp
              | some cfg =>
                have hE : conf_parse_rlimit line arr
                    = (arr.set (str2rlim limit).toNat
                        { arr.getD (str2rlim limit).toNat ⟨0, 0⟩ with
                            rlim_max := cfg }, false) := by
                  unfold conf_parse_rlimit; rw [htok]
                  simp [hres, hsoft, hhard, hval]
                refine ⟨fun hw => ?_, fun _ => ?_⟩
                · rw [hE] at hw; simp at hw
                · exact ⟨level, limit, val, rest, cfg, rfl, by omega, hval,
                    Or.inr ⟨hhard, by rw [hE]⟩⟩
            · have hsoft2 : ¬ level = ['s', 'o', 'f', 't'] :=
                fun h => hsoft (h.trans (by decide))
              have hhard2 : ¬ level = ['h', 'a', 'r', 'd'] :=
                fun h => hhard (h.trans (by decide))
              have hE : conf_parse_rlimit line arr = (arr, true) := by
                unfold conf_parse_rlimit; rw [htok]; simp [hres, hsoft2, hhard2]
              rw [hE]; simp

/-- Witness for `conf_parse_rlimit_spec`: the spec's failing line
`soft bogus 10` leaves a concrete array untouched. -/
theorem conf_parse_rlimit_spec_witness :
    (conf_parse_rlimit "soft bogus 10".toList
        (List.replicate 16 ⟨5, 7⟩)).2 = true ∧
    (conf_parse_rlimit "soft bogus 10".toList
        (List.replicate 16 ⟨5, 7⟩)).1 = List.replicate 16 ⟨5, 7⟩ :=
  ⟨by decide,
   (conf_parse_rlimit_spec "soft bogus 10".toList
      (List.replicate 16 ⟨5, 7⟩)).1 (by decide)⟩

lemma str2rlim_cases (s : List Char) :
    str2rlim s = -1 ∨
      (0 ≤ str2rlim s ∧ str2rlim s < (RLIMIT_NLIMITS : Int)) := by
  cases hf : rlimit_names.find? (fun rn => rn.1 = s) with
  | none =>
    left
    unfold str2rlim; rw [hf]
  | some rn =>
    right
    have hmem : rn ∈ rlimit_names := List.mem_of_find?_eq_some hf
    have hv16 : ∀ p ∈ rlimit_names, p.2 < 16 := by decide
    have h16 : rn.2 < 16 := hv16 rn hmem
    have hE : str2rlim s = (rn.2 : Int) := by unfold str2rlim; rw [hf]
    rw [hE]
    constructor
    · exact Int.ofNat_nonneg rn.2
    · show ((rn.2 : Int)) < ((16 : Nat) : Int)
      exact_mod_cast h16

/-- C10: `str2rlim` only returns `-1` or a recognized resource number below
`RLIMIT_NLIMITS`, and consequently every array write `conf_parse_rlimit`
performs uses an index strictly below `RLIMIT_NLIMITS` — the
`resource > RLIMIT_NLIMITS` guard admits index `RLIMIT_NLIMITS` itself,
but that branch is unreachable. -/
theorem rlimit_write_in_bounds :
    (∀ s : List Char, str2rlim s = -1 ∨
      (0 ≤ str2rlim s ∧ str2rlim s < (RLIMIT_NLIMITS : Int))) ∧
    (∀ (line : List Char) (arr : List Rlimit),
      (conf_parse_rlimit line arr).1 = arr ∨
      ∃ i r, i < RLIMIT_NLIMITS ∧
        (conf_parse_rlimit line arr).1 = arr.set i r) := by
  refine ⟨str2rlim_cases, fun line arr => ?_⟩
  cases htok : tokens line with
  | nil =>
    left; unfold conf_parse_rlimit; rw [htok]
  | cons level ts =>
    cases ts with
    | nil => left; unfold conf_parse_rlimit; rw [htok]
    | cons limit ts2 =>
      cases ts2 with
      | nil => left; unfold conf_parse_rlimit; rw [htok]
      | cons val rest =>
        by_cases hres : str2rlim limit < 0 ∨ str2rlim limit > (RLIMIT_NLIMITS : Int)
        · left
          have hE : conf_parse_rlimit line arr = (arr, true) := by
            unfold conf_parse_rlimit; rw [htok]; simp [hres]
          rw [hE]
        · have hlt : (str2rlim limit).toNat < RLIMIT_NLIMITS := by
            rcases str2rlim_cases limit with hneg | ⟨h0, hlt⟩
            · exfalso; push_neg at hres; omega
            · have h16 : (RLIMIT_NLIMITS : Int) = ((16 : Nat) : Int) := rfl
              rw [h16] at hlt
              show (str2rlim limit).toNat < 16
              omega
          by_cases hsoft : level = "soft".toList
          · cases hval : rlimitValue val with
            | none =>
              left
              have hE : conf_parse_rlimit line arr = (arr, true) := by
                unfold conf_parse_rlimit; rw [htok]; simp [hres, hsoft, hval]
              rw [hE]
            | some cfg =>
              right
              have hE : conf_parse_rlimit line arr
                  = (arr.set (str2rlim limit).toNat
                      { arr.getD (str2rlim limit).toNat ⟨0, 0⟩ with
                          rlim_cur := cfg }, false) := by
                unfold conf_parse_rlimit; rw [htok]; simp [hres, hsoft, hval]
              exact ⟨(str2rlim limit).toNat, _, hlt, by rw [hE]⟩
          · by_cases hhard : level = "hard".toList
            · cases hval : rlimitValue val with
              | none =>
                left
                have hE : conf_parse_rlimit line arr = (arr, true) := by
                  unfold conf_parse_rlimit; rw [htok]
                  simp [hres, hsoft, hhard, hval]
                rw [hE]
              | some cfg =>
                right
                have hE : conf_parse_rlimit line arr
                    = (arr.set (str2rlim limit).toNat
                        { arr.getD (str2rlim limit).toNat ⟨0, 0⟩ with
                            rlim_max := cfg }, false) := by
                  unfold conf_parse_rlimit; rw [htok]
                  simp [hres, hsoft, hhard, hval]
                exact ⟨(str2rlim limit).toNat, _, hlt, by rw [hE]⟩
            · left
              have hsoft2 : ¬ level = ['s', 'o', 'f', 't'] :=
                fun h => hsoft (h.trans (by decide))
              have hhard2 : ¬ level = ['h', 'a', 'r', 'd'] :=
                fun h => hhard (h.trans (by decide))
              have hE : conf_parse_rlimit line arr = (arr, true) := by
                unfold conf_parse_rlimit; rw [htok]; simp [hres, hsoft2, hhard2]
              rw [hE]

/-! ### State machine: equation lemmas -/

lemma smStepAux_succ (fuel k : Nat) (env : Env) (s : St) :
    smStepAux (fuel + 1) k env s =
      if (smExec1 (env.stop k) (env.chg k) s).state = s.state
      then some (smExec1 (env.stop k) (env.chg k) s)
      else smStepAux fuel (k + 1) env (smExec1 (env.stop k) (env.chg k) s) :=
  rfl

lemma smExec1_bootstrap (a b : Bool) (nl : Int) (rl td : Bool)
    (run prev : Int) (ac : List FsAct) :
    smExec1 a b ⟨SmState.bootstrap, nl, rl, td, run, prev, ac⟩
      = ⟨SmState.running, nl, rl, td, run, prev, ac⟩ := rfl

lemma smExec1_running (a b : Bool) (nl : Int) (rl td : Bool)
    (run prev : Int) (ac : List FsAct) :
    smExec1 a b ⟨SmState.running, nl, rl, td, run, prev, ac⟩
      = if 0 ≤ nl ∧ nl ≤ 9 then
          if run = nl then ⟨SmState.running, -1, rl, td, run, prev, ac⟩
          else ⟨SmState.runlevel_change, nl, rl, td, run, prev, ac⟩
        else if rl then ⟨SmState.reload_change, nl, false, td, run, prev, ac⟩
        else ⟨SmState.running, nl, rl, td, run, prev, ac⟩ := rfl

lemma smExec1_runlevel_change (a b : Bool) (nl : Int) (rl td : Bool)
    (run prev : Int) (ac : List FsAct) :
    smExec1 a b ⟨SmState.runlevel_change, nl, rl, td, run, prev, ac⟩
      = ⟨SmState.runlevel_wait, -1, rl, true, nl, run,
          ac ++ nologinActs nl run⟩ := rfl

lemma smExec1_runlevel_wait (a b : Bool) (nl : Int) (rl td : Bool)
    (run prev : Int) (ac : List FsAct) :
    smExec1 a b ⟨SmState.runlevel_wait, nl, rl, td, run, prev, ac⟩
      = if a then ⟨SmState.runlevel_wait, nl, rl, td, run, prev, ac⟩
        else ⟨SmState.running, nl, rl, false, run, prev, ac⟩ := rfl

lemma smExec1_reload_change (a b : Bool) (nl : Int) (rl td : Bool)
    (run prev : Int) (ac : List FsAct) :
    smExec1 a b ⟨SmState.reload_change, nl, rl, td, run, prev, ac⟩
      = ⟨SmState.reload_wait, nl, rl, true, run, prev, ac⟩ := rfl

lemma smExec1_reload_wait (a b : Bool) (nl : Int) (rl td : Bool)
    (run prev : Int) (ac : List FsAct) :
    smExec1 a b ⟨SmState.reload_wait, nl, rl, td, run, prev, ac⟩
      = if a then ⟨SmState.reload_wait, nl, rl, td, run, prev, ac⟩
        else ⟨SmState.running, nl, rl, false, run, prev, ac⟩ := rfl

/-! ### C6: termination of the `sm_step` loop -/

/-- A state in which the re-run loop comes to rest. -/
def Resting (t : St) : Prop :=
  t.state = SmState.running ∨ t.state = SmState.runlevel_wait ∨
    t.state = SmState.reload_wait

lemma aux_run_inert (fuel k : Nat) (env : Env) (nl : Int) (td : Bool)
    (run prev : Int) (ac : List FsAct) (hnl : ¬ (0 ≤ nl ∧ nl ≤ 9)) :
    smStepAux (fuel + 1) k env ⟨SmState.running, nl, false, td, run, prev, ac⟩
      = some ⟨SmState.running, nl, false, td, run, prev, ac⟩ := by
  rw [smStepAux_succ, smExec1_running]
  simp [hnl]

lemma aux_run_norange (fuel k : Nat) (env : Env) (nl : Int) (rl td : Bool)
    (run prev : Int) (ac : List FsAct) (hnl : ¬ (0 ≤ nl ∧ nl ≤ 9)) :
    ∃ t, smStepAux (fuel + 1 + 1 + 1 + 1) k env
        ⟨SmState.running, nl, rl, td, run, prev, ac⟩ = some t ∧ Resting t := by
  cases rl with
  | false =>
    exact ⟨_, aux_run_inert (fuel + 1 + 1 + 1) k env nl td run prev ac hnl,
      Or.inl rfl⟩
  | true =>
    have h1 : smStepAux (fuel + 1 + 1 + 1 + 1) k env
          ⟨SmState.running, nl, true, td, run, prev, ac⟩
        = smStepAux (fuel + 1 + 1 + 1) (k + 1) env
          ⟨SmState.reload_change, nl, false, td, run, prev, ac⟩ := by
      rw [smStepAux_succ, smExec1_running]
      simp [hnl]
    have h2 : smStepAux (fuel + 1 + 1 + 1) (k + 1) env
          ⟨SmState.reload_change, nl, false, td, run, prev, ac⟩
        = smStepAux (fuel + 1 + 1) (k + 2) env
          ⟨SmState.reload_wait, nl, false, true, run, prev, ac⟩ := by
      rw [smStepAux_succ, smExec1_reload_change]
      simp
    by_cases hstop : env.stop (k + 2)
    · have h3 : smStepAux (fuel + 1 + 1) (k + 2) env
            ⟨SmState.reload_wait, nl, false, true, run, prev, ac⟩
          = some ⟨SmState.reload_wait, nl, false, true, run, prev, ac⟩ := by
        rw [smStepAux_succ, smExec1_reload_wait]
        simp [hstop]
      exact ⟨_, by rw [h1, h2, h3], Or.inr (Or.inr rfl)⟩
    · have h3 : smStepAux (fuel + 1 + 1) (k + 2) env
            ⟨SmState.reload_wait, nl, false, true, run, prev, ac⟩
          = smStepAux (fuel + 1) (k + 3) env
            ⟨SmState.running, nl, false, false, run, prev, ac⟩ := by
        rw [smStepAux_succ, smExec1_reload_wait]
        simp [hstop]
      have h4 := aux_run_inert fuel (k + 3) env nl false run prev ac hnl
      exact ⟨_, by rw [h1, h2, h3, h4], Or.inl rfl⟩

lemma aux_run_any (fuel k : Nat) (env : Env) (nl : Int) (rl td : Bool)
    (run prev : Int) (ac : List FsAct) :
    ∃ t, smStepAux (fuel + 1 + 1 + 1 + 1 + 1 + 1 + 1) k env
        ⟨SmState.running, nl, rl, td, run, prev, ac⟩ = some t ∧ Resting t := by
  by_cases hnl : 0 ≤ nl ∧ nl ≤ 9
  · by_cases heq : run = nl
    · refine ⟨⟨SmState.running, -1, rl, td, run, prev, ac⟩, ?_, Or.inl rfl⟩
      rw [smStepAux_succ, smExec1_running]
      simp [hnl, heq]
    · have h1 : smStepAux (fuel + 1 + 1 + 1 + 1 + 1 + 1 + 1) k env
            ⟨SmState.running, nl, rl, td, run, prev, ac⟩
          = smStepAux (fuel + 1 + 1 + 1 + 1 + 1 + 1) (k + 1) env
            ⟨SmState.runlevel_change, nl, rl, td, run, prev, ac⟩ := by
        rw [smStepAux_succ, smExec1_running]
        simp [hnl, heq]
      have h2 : smStepAux (fuel + 1 + 1 + 1 + 1 + 1 + 1) (k + 1) env
            ⟨SmState.runlevel_change, nl, rl, td, run, prev, ac⟩
          = smStepAux (fuel + 1 + 1 + 1 + 1 + 1) (k + 2) env
            ⟨SmState.runlevel_wait, -1, rl, true, nl, run,
              ac ++ nologinActs nl run⟩ := by
        rw [smStepAux_succ, smExec1_runlevel_change]
        simp
      by_cases hstop : env.stop (k + 2)
      · have h3 : smStepAux (fuel + 1 + 1 + 1 + 1 + 1) (k + 2) env
              ⟨SmState.runlevel_wait, -1, rl, true, nl, run,
                ac ++ nologinActs nl run⟩
            = some ⟨SmState.runlevel_wait, -1, rl, true, nl, run,
                ac ++ nologinActs nl run⟩ := by
          rw [smStepAux_succ, smExec1_runlevel_wait]
          simp [hstop]
        exact ⟨_, by rw [h1, h2, h3], Or.inr (Or.inl rfl)⟩
      · have h3 : smStepAux (fuel + 1 + 1 + 1 + 1 + 1) (k + 2) env
              ⟨SmState.runlevel_wait, -1, rl, true, nl, run,
                ac ++ nologinActs nl run⟩
            = smStepAux (fuel + 1 + 1 + 1 + 1) (k + 3) env
              ⟨SmState.running, -1, rl, false, nl, run,
                ac ++ nologinActs nl run⟩ := by
          rw [smStepAux_succ, smExec1_runlevel_wait]
          simp [hstop]
        have hnr : ¬ ((0 : Int) ≤ -1 ∧ (-1 : Int) ≤ 9) := by omega
        obtain ⟨t, ht, hrest⟩ := aux_run_norange fuel (k + 3) env (-1) rl false
          nl run (ac ++ nologinActs nl run) hnr
        exact ⟨t, by rw [h1, h2, h3, ht], hrest⟩
  · obtain ⟨t, ht, hrest⟩ := aux_run_norange (fuel + 1 + 1 + 1) k env nl rl td
      run prev ac hnl
    exact ⟨t, ht, hrest⟩

lemma aux_terminates (fuel k : Nat) (env : Env) (s : St) :
    ∃ t, smStepAux (fuel + 1 + 1 + 1 + 1 + 1 + 1 + 1 + 1 + 1) k env s = some t
      ∧ Resting t := by
  obtain ⟨st, nl, rl, td, run, prev, ac⟩ := s
  cases st with
  | bootstrap =>
    have h1 : smStepAux (fuel + 1 + 1 + 1 + 1 + 1 + 1 + 1 + 1 + 1) k env
          ⟨SmState.bootstrap, nl, rl, td, run, prev, ac⟩
        = smStepAux (fuel + 1 + 1 + 1 + 1 + 1 + 1 + 1 + 1) (k + 1) env
          ⟨SmState.running, nl, rl, td, run, prev, ac⟩ := by
      rw [smStepAux_succ, smExec1_bootstrap]
      simp
    obtain ⟨t, ht, hrest⟩ := aux_run_any (fuel + 1) (k + 1) env nl rl td run prev ac
    exact ⟨t, by rw [h1, ht], hrest⟩
  | running =>
    obtain ⟨t, ht, hrest⟩ := aux_run_any (fuel + 1 + 1) k env nl rl td run prev ac
    exact ⟨t, ht, hrest⟩
  | runlevel_change =>
    have h1 : smStepAux (fuel + 1 + 1 + 1 + 1 + 1 + 1 + 1 + 1 + 1) k env
          ⟨SmState.runlevel_change, nl, rl, td, run, prev, ac⟩
        = smStepAux (fuel + 1 + 1 + 1 + 1 + 1 + 1 + 1 + 1) (k + 1) env
          ⟨SmState.runlevel_wait, -1, rl, true, nl, run,
            ac ++ nologinActs nl run⟩ := by
      rw [smStepAux_succ, smExec1_runlevel_change]
      simp
    by_cases hstop : env.stop (k + 1)
    · have h2 : smStepAux (fuel + 1 + 1 + 1 + 1 + 1 + 1 + 1 + 1) (k + 1) env
            ⟨SmState.runlevel_wait, -1, rl, true, nl, run,
              ac ++ nologinActs nl run⟩
          = some ⟨SmState.runlevel_wait, -1, rl, true, nl, run,
              ac ++ nologinActs nl run⟩ := by
        rw [smStepAux_succ, smExec1_runlevel_wait]
        simp [hstop]
      exact ⟨_, by rw [h1, h2], Or.inr (Or.inl rfl)⟩
    · have h2 : smStepAux (fuel + 1 + 1 + 1 + 1 + 1 + 1 + 1 + 1) (k + 1) env
            ⟨SmState.runlevel_wait, -1, rl, true, nl, run,
              ac ++ nologinActs nl run⟩
          = smStepAux (fuel + 1 + 1 + 1 + 1 + 1 + 1 + 1) (k + 2) env
            ⟨SmState.running, -1, rl, false, nl, run,
              ac ++ nologinActs nl run⟩ := by
        rw [smStepAux_succ, smExec1_runlevel_wait]
        simp [hstop]
      obtain ⟨t, ht, hrest⟩ := aux_run_any fuel (k + 2) env (-1) rl false nl run
        (ac ++ nologinActs nl run)
      exact ⟨t, by rw [h1, h2, ht], hrest⟩
  | runlevel_wait =>
    by_cases hstop : env.stop k
    · have h1 : smStepAux (fuel + 1 + 1 + 1 + 1 + 1 + 1 + 1 + 1 + 1) k env
            ⟨SmState.runlevel_wait, nl, rl, td, run, prev, ac⟩
          = some ⟨SmState.runlevel_wait, nl, rl, td, run, prev, ac⟩ := by
        rw [smStepAux_succ, smExec1_runlevel_wait]
        simp [hstop]
      exact ⟨_, h1, Or.inr (Or.inl rfl)⟩
    · have h1 : smStepAux (fuel + 1 + 1 + 1 + 1 + 1 + 1 + 1 + 1 + 1) k env
            ⟨SmState.runlevel_wait, nl, rl, td, run, prev, ac⟩
          = smStepAux (fuel + 1 + 1 + 1 + 1 + 1 + 1 + 1 + 1) (k + 1) env
            ⟨SmState.running, nl, rl, false, run, prev, ac⟩ := by
        rw [smStepAux_succ, smExec1_runlevel_wait]
        simp [hstop]
      obtain ⟨t, ht, hrest⟩ := aux_run_any (fuel + 1) (k + 1) env nl rl false
        run prev ac
      exact ⟨t, by rw [h1, ht], hrest⟩
  | reload_change =>
    have h1 : smStepAux (fuel + 1 + 1 + 1 + 1 + 1 + 1 + 1 + 1 + 1) k env
          ⟨SmState.reload_change, nl, rl, td, run, prev, ac⟩
        = smStepAux (fuel + 1 + 1 + 1 + 1 + 1 + 1 + 1 + 1) (k + 1) env
          ⟨SmState.reload_wait, nl, rl, true, run, prev, ac⟩ := by
      rw [smStepAux_succ, smExec1_reload_change]
      simp
    by_cases hstop : env.stop (k + 1)
    · have h2 : smStepAux (fuel + 1 + 1 + 1 + 1 + 1 + 1 + 1 + 1) (k + 1) env
            ⟨SmState.reload_wait, nl, rl, true, run, prev, ac⟩
          = some ⟨SmState.reload_wait, nl, rl, true, run, prev, ac⟩ := by
        rw [smStepAux_succ, smExec1_reload_wait]
        simp [hstop]
      exact ⟨_, by rw [h1, h2], Or.inr (Or.inr rfl)⟩
    · have h2 : smStepAux (fuel + 1 + 1 + 1 + 1 + 1 + 1 + 1 + 1) (k + 1) env
            ⟨SmState.reload_wait, nl, rl, true, run, prev, ac⟩
          = smStepAux (fuel + 1 + 1 + 1 + 1 + 1 + 1 + 1) (k + 2) env
            ⟨SmState.running, nl, rl, false, run, prev, ac⟩ := by
        rw [smStepAux_succ, smExec1_reload_wait]
        simp [hstop]
      obtain ⟨t, ht, hrest⟩ := aux_run_any fuel (k + 2) env nl rl false
        run prev ac
      exact ⟨t, by rw [h1, h2, ht], hrest⟩
  | reload_wait =>
    by_cases hstop : env.stop k
    · have h1 : smStepAux (fuel + 1 + 1 + 1 + 1 + 1 + 1 + 1 + 1 + 1) k env
            ⟨SmState.reload_wait, nl, rl, td, run, prev, ac⟩
          = some ⟨SmState.reload_wait, nl, rl, td, run, prev, ac⟩ := by
        rw [smStepAux_succ, smExec1_reload_wait]
        simp [hstop]
      exact ⟨_, h1, Or.inr (Or.inr rfl)⟩
    · have h1 : smStepAux (fuel + 1 + 1 + 1 + 1 + 1 + 1 + 1 + 1 + 1) k env
            ⟨SmState.reload_wait, nl, rl, td, run, prev, ac⟩
          = smStepAux (fuel + 1 + 1 + 1 + 1 + 1 + 1 + 1 + 1) (k + 1) env
            ⟨SmState.running, nl, rl, false, run, prev, ac⟩ := by
        rw [smStepAux_succ, smExec1_reload_wait]
        simp [hstop]
      obtain ⟨t, ht, hrest⟩ := aux_run_any (fuel + 1) (k + 1) env nl rl false
        run prev ac
      exact ⟨t, by rw [h1, ht], hrest⟩

/-- C6: for every initial machine state and every sequence of collaborator
answers, a single `sm_step` call terminates: the re-run loop reaches a
fixed point within the 10-iteration fuel bound, ending in the running
state or one of the wait states. -/
theorem sm_step_terminates (env : Env) (s : St) :
    ∃ t, smStepAux 10 0 env s = some t ∧ sm_step env s = t ∧
      (t.state = SmState.running ∨ t.state = SmState.runlevel_wait ∨
        t.state = SmState.reload_wait) := by
  have h : ∃ t, smStepAux (1 + 1 + 1 + 1 + 1 + 1 + 1 + 1 + 1 + 1) 0 env s
      = some t ∧ Resting t := aux_terminates 1 0 env s
  obtain ⟨t, ht, hrest⟩ := h
  have h10 : smStepAux 10 0 env s = some t := by
    have : (10 : Nat) = 1 + 1 + 1 + 1 + 1 + 1 + 1 + 1 + 1 + 1 := by norm_num
    rw [this, ht]
  exact ⟨t, h10, by simp [sm_step, h10], hrest⟩

/-! ### C2: stability between two consecutive steps -/

lemma aux_shape (fuel : Nat) :
    ∀ (k : Nat) (env : Env) (s t : St), smStepAux fuel k env s = some t →
      ∃ j u, t = smExec1 (env.stop j) (env.chg j) u ∧ t.state = u.state := by
  induction fuel with
  | zero => intro k env s t h; simp [smStepAux] at h
  | succ n ih =>
    intro k env s t h
    rw [smStepAux_succ] at h
    by_cases hst : (smExec1 (env.stop k) (env.chg k) s).state = s.state
    · rw [if_pos hst] at h
      obtain rfl := Option.some.inj h
      exact ⟨k, s, rfl, hst⟩
    · rw [if_neg hst] at h
      exact ih (k + 1) env _ t h

lemma smExec1_progress (a b : Bool) (u : St) :
    (u.state = SmState.bootstrap →
      (smExec1 a b u).state = SmState.running) ∧
    (u.state = SmState.runlevel_change →
      (smExec1 a b u).state = SmState.runlevel_wait) ∧
    (u.state = SmState.reload_change →
      (smExec1 a b u).state = SmState.reload_wait) := by
  obtain ⟨st, nl, rl, td, run, prev, ac⟩ := u
  cases st <;> simp [smExec1]

lemma smExec1_running_fix (a b : Bool) (u : St)
    (hu : u.state = SmState.running)
    (hfix : (smExec1 a b u).state = SmState.running) :
    ¬ (0 ≤ (smExec1 a b u).newlevel ∧ (smExec1 a b u).newlevel ≤ 9) := by
  obtain ⟨st, nl, rl, td, run, prev, ac⟩ := u
  cases st
  case running =>
    rw [smExec1_running] at hfix ⊢
    by_cases hin : 0 ≤ nl ∧ nl ≤ 9
    · by_cases heq : run = nl
      · rw [if_pos hin, if_pos heq]
        show ¬ ((0 : Int) ≤ -1 ∧ (-1 : Int) ≤ 9)
        omega
      · rw [if_pos hin, if_neg heq] at hfix
        exact absurd hfix (by simp)
    · by_cases hrl : rl
      · rw [if_neg hin, if_pos hrl] at hfix
        exact absurd hfix (by simp)
      · rw [if_neg hin, if_neg hrl]
        show ¬ (0 ≤ nl ∧ nl ≤ 9)
        exact hin
  all_goals exact absurd hu (by simp)

lemma smExec1_inert (a b : Bool) (t : St) (hs : t.state = SmState.running)
    (hnl : ¬ (0 ≤ t.newlevel ∧ t.newlevel ≤ 9)) (hr : t.reload = false) :
    smExec1 a b t = t := by
  obtain ⟨st, nl, rl, td, run, prev, ac⟩ := t
  cases st
  case running =>
    have hnl2 : ¬ (0 ≤ nl ∧ nl ≤ 9) := hnl
    have hr2 : rl = false := hr
    subst hr2
    rw [smExec1_running, if_neg hnl2]
    simp
  all_goals exact absurd hs (by simp)

lemma smExec1_wait_fix (a b : Bool) (u : St)
    (hw : u.state = SmState.runlevel_wait ∨ u.state = SmState.reload_wait)
    (hfix : (smExec1 a b u).state = u.state) :
    a = true ∧ smExec1 a b u = u := by
  obtain ⟨st, nl, rl, td, run, prev, ac⟩ := u
  rcases hw with hw | hw <;> cases st <;> simp_all <;> cases a <;>
    simp_all [smExec1]

lemma smExec1_wait_true (b : Bool) (u : St)
    (hw : u.state = SmState.runlevel_wait ∨ u.state = SmState.reload_wait) :
    smExec1 true b u = u := by
  obtain ⟨st, nl, rl, td, run, prev, ac⟩ := u
  rcases hw with hw | hw <;> cases st <;> simp_all [smExec1]

/-- C2 (counterexample): with `runlevel = 3`, `newlevel = 3` and a pending
reload request, the first `sm_step` merely clears `newlevel` and returns
in the running state; a second call — with identical registry answers —
performs the reload transition, changing `sm.state` to a wait state.  This
is exactly the situation the claim singles out as stable. -/
theorem sm_step_stable_counterexample :
    (sm_step ⟨fun _ => true, fun _ => false⟩
        ⟨SmState.running, 3, true, false, 3, 0, []⟩).state = SmState.running ∧
    (sm_step ⟨fun _ => true, fun _ => false⟩
        (sm_step ⟨fun _ => true, fun _ => false⟩
          ⟨SmState.running, 3, true, false, 3, 0, []⟩)).state
      = SmState.reload_wait := by
  decide

/-- C2 (amended): once `sm_step` has returned (the loop exited with result
`t`), a further call with unchanged registry answers leaves `sm.state`
unchanged, provided no reload request is still pending when resting in the
running state.  (When such a request is pending — the counterexample — the
second call performs the reload transition.) -/
theorem sm_step_stable (env : Env) (s t : St)
    (hconst : ∀ i j, env.stop i = env.stop j)
    (hret : smStepAux 10 0 env s = some t)
    (hrel : t.state = SmState.running → t.reload = false) :
    (sm_step env t).state = t.state := by
  obtain ⟨j, u, htu, hts⟩ := aux_shape 10 0 env s t hret
  have hfix1 : smExec1 (env.stop 0) (env.chg 0) t = t := by
    cases hstate : u.state with
    | bootstrap =>
      exfalso
      have hp := (smExec1_progress (env.stop j) (env.chg j) u).1 hstate
      rw [← htu] at hp
      rw [hts, hstate] at hp
      simp at hp
    | runlevel_change =>
      exfalso
      have hp := (smExec1_progress (env.stop j) (env.chg j) u).2.1 hstate
      rw [← htu] at hp
      rw [hts, hstate] at hp
      simp at hp
    | reload_change =>
      exfalso
      have hp := (smExec1_progress (env.stop j) (env.chg j) u).2.2 hstate
      rw [← htu] at hp
      rw [hts, hstate] at hp
      simp at hp
    | running =>
      have h1 : t.state = SmState.running := by rw [hts, hstate]
      have hnr : ¬ (0 ≤ t.newlevel ∧ t.newlevel ≤ 9) := by
        rw [htu]
        exact smExec1_running_fix _ _ u hstate (by rw [← htu, h1])
      exact smExec1_inert _ _ t h1 hnr (hrel h1)
    | runlevel_wait =>
      have hW := smExec1_wait_fix (env.stop j) (env.chg j) u
        (Or.inl hstate) (by rw [← htu, hts])
      have htu2 : t = u := by rw [htu, hW.2]
      have hs0 : env.stop 0 = true := (hconst 0 j).trans hW.1
      rw [hs0, htu2]
      exact smExec1_wait_true _ u (Or.inl hstate)
    | reload_wait =>
      have hW := smExec1_wait_fix (env.stop j) (env.chg j) u
        (Or.inr hstate) (by rw [← htu, hts])
      have htu2 : t = u := by rw [htu, hW.2]
      have hs0 : env.stop 0 = true := (hconst 0 j).trans hW.1
      rw [hs0, htu2]
      exact smExec1_wait_true _ u (Or.inr hstate)
  have hagain : smStepAux 10 0 env t = some t := by
    have h10 : (10 : Nat) = 9 + 1 := by norm_num
    rw [h10, smStepAux_succ, hfix1, if_pos rfl]
  simp [sm_step, hagain]

/-- Witness for `sm_step_stable`: a quiescent running state is a fixed
point of `sm_step`. -/
theorem sm_step_stable_witness :
    smStepAux 10 0 ⟨fun _ => false, fun _ => false⟩
        ⟨SmState.running, -1, false, false, 2, 0, []⟩
      = some ⟨SmState.running, -1, false, false, 2, 0, []⟩ ∧
    (sm_step ⟨fun _ => false, fun _ => false⟩
        ⟨SmState.running, -1, false, false, 2, 0, []⟩).state
      = SmState.running :=
  ⟨by decide,
   sm_step_stable ⟨fun _ => false, fun _ => false⟩
     ⟨SmState.running, -1, false, false, 2, 0, []⟩
     ⟨SmState.running, -1, false, false, 2, 0, []⟩
     (fun _ _ => rfl) (by decide) (fun _ => rfl)⟩

/-! ### C7: the nologin policy during a runlevel change -/

/-- C7: in the `runlevel_change` handler — after the globals are updated,
so `nologin()` sees the new runlevel in `runlevel` and the old one in
`prevlevel` — `/etc/nologin` is created iff the new runlevel is one of
0, 1, 6, and erased iff the previous runlevel is one of 0, 1, 6; both can
happen in the same transition. -/
theorem nologin_policy (a b : Bool) (s : St)
    (hs : s.state = SmState.runlevel_change) :
    (smExec1 a b s).acts = s.acts ++ nologinActs s.newlevel s.runlevel ∧
    (FsAct.touch ∈ nologinActs s.newlevel s.runlevel ↔
      (s.newlevel = 0 ∨ s.newlevel = 1 ∨ s.newlevel = 6)) ∧
    (FsAct.erase ∈ nologinActs s.newlevel s.runlevel ↔
      (s.runlevel = 0 ∨ s.runlevel = 1 ∨ s.runlevel = 6)) := by
  obtain ⟨st, nl, rl, td, run, prev, ac⟩ := s
  cases st <;> simp_all
  refine ⟨by rw [smExec1_runlevel_change], ?_, ?_⟩ <;>
    · unfold nologinActs
      split_ifs <;> simp_all <;> tauto

/-- Witness for `nologin_policy`: the transition 2 → 6 creates
`/etc/nologin` and does not erase it. -/
theorem nologin_policy_witness :
    (smExec1 false false
        ⟨SmState.runlevel_change, 6, false, false, 2, 0, []⟩).acts
      = ([] : List FsAct) ++ nologinActs 6 2 ∧
    (FsAct.touch ∈ nologinActs 6 2 ↔
      ((6 : Int) = 0 ∨ (6 : Int) = 1 ∨ (6 : Int) = 6)) ∧
    (FsAct.erase ∈ nologinActs 6 2 ↔
      ((2 : Int) = 0 ∨ (2 : Int) = 1 ∨ (2 : Int) = 6)) :=
  nologin_policy false false
    ⟨SmState.runlevel_change, 6, false, false, 2, 0, []⟩ rfl

end Finit
